import Mathlib

/-!
Verification of the WAL dump pipeline of `tool` (the `wal dump` sub-command
implemented by `(*walT).runDump` in `src/tool/make_test_sstables.go`).

The development shallowly embeds the per-file dump loop: filename-based file
number recovery, the framed record source's tri-state failure classification,
batch header decoding, the per-entry decode-and-render loop, and the top-level
iteration over input paths.  Bytes are modelled as natural numbers, byte
strings as `List Nat`, and printed output as `List String` (one element per
`Fprintf` call).
-/

namespace WalDump

/-- Embedding of Go's `encoding/binary.Uvarint` inner loop.  `buf` is the
remaining input, `i` the current byte index, `s` the current shift and `x` the
accumulator.  Go accumulates with `x | uint64(b&0x7f)<<s`; since the low `s`
bits of the accumulator are exactly the previously consumed 7-bit groups, the
bitwise or coincides with addition, which is used here.  The final value is
reduced mod `2 ^ 64` as Go computes in `uint64`. -/
def uvarintAux : List Nat → Nat → Nat → Nat → Nat × Int
  | [], _, _, _ => (0, 0)
  | b :: rest, i, s, x =>
    if i = 10 then (0, -11)
    else if b < 128 then
      if i = 9 ∧ 1 < b then (0, -10)
      else ((x + b * 2 ^ s) % 2 ^ 64, (i : Int) + 1)
    else uvarintAux rest (i + 1) (s + 7) (x + b % 128 * 2 ^ s)

/-- Embedding of Go's `encoding/binary.Uvarint`: returns the decoded value and
the number of bytes read; the count is `0` when the buffer is too short and
negative on overflow. -/
def uvarint (buf : List Nat) : Nat × Int :=
  uvarintAux buf 0 0 0

/-- Embedding of Go's `encoding/binary.PutUvarint`/`AppendUvarint` encoding of
an unsigned integer in base-128 little-endian groups with continuation bits. -/
def putUvarint (n : Nat) : List Nat :=
  if h : n < 128 then [n]
  else (n % 128 + 128) :: putUvarint (n / 128)
termination_by n
decreasing_by exact Nat.div_lt_self (by omega) (by omega)

theorem putUvarint_length_pos (n : Nat) : 0 < (putUvarint n).length := by
  rw [putUvarint]
  split <;> simp

theorem uvarintAux_spec (n : Nat) : ∀ i x rest, i ≤ 9 → n * 2 ^ (7 * i) < 2 ^ 64 →
    uvarintAux (putUvarint n ++ rest) i (7 * i) x =
      ((x + n * 2 ^ (7 * i)) % 2 ^ 64, (i : Int) + (putUvarint n).length) := by
  induction n using Nat.strong_induction_on with
  | _ n ih =>
    intro i x rest hi hb
    by_cases h : n < 128
    · rw [putUvarint, dif_pos h]
      have hn2 : ¬(i = 9 ∧ 1 < n) := by
        rintro ⟨rfl, hn⟩
        have : 2 * 2 ^ (7 * 9) ≤ n * 2 ^ (7 * 9) :=
          Nat.mul_le_mul_right _ (by omega)
        norm_num at this
        omega
      simp only [List.cons_append, List.length_cons, List.length_nil, uvarintAux,
        if_neg (by omega : ¬ i = 10), if_pos h, if_neg hn2]
      norm_num
    · rw [putUvarint, dif_neg h]
      have hdiv : n / 128 < n := Nat.div_lt_self (by omega) (by omega)
      have hkey : n / 128 * 2 ^ (7 * (i + 1)) ≤ n * 2 ^ (7 * i) := by
        have h1 : n / 128 * 128 ≤ n := Nat.div_mul_le_self n 128
        calc n / 128 * 2 ^ (7 * (i + 1)) = n / 128 * 128 * 2 ^ (7 * i) := by ring_nf
          _ ≤ n * 2 ^ (7 * i) := Nat.mul_le_mul_right _ h1
      have hi8 : i ≤ 8 := by
        rcases Nat.lt_or_ge i 9 with h9 | h9
        · omega
        · exfalso
          have : i = 9 := by omega
          subst this
          have : 128 * 2 ^ (7 * 9) ≤ n * 2 ^ (7 * 9) :=
            Nat.mul_le_mul_right _ (by omega)
          norm_num at this
          omega
      have hbound : n / 128 * 2 ^ (7 * (i + 1)) < 2 ^ 64 := lt_of_le_of_lt hkey hb
      have hrec := ih (n / 128) hdiv (i + 1) (x + n % 128 * 2 ^ (7 * i)) rest
        (by omega) hbound
      have hmod : (n % 128 + 128) % 128 = n % 128 := by omega
      have hshift : 7 * i + 7 = 7 * (i + 1) := by ring
      simp only [List.cons_append, List.append_eq, uvarintAux,
        if_neg (by omega : ¬ i = 10),
        if_neg (by omega : ¬ n % 128 + 128 < 128), hmod, hshift,
        List.length_cons]
      rw [hrec]
      have hprod : n % 128 * 2 ^ (7 * i) + n / 128 * 2 ^ (7 * (i + 1)) = n * 2 ^ (7 * i) := by
        have hsplit : n % 128 + 128 * (n / 128) = n := Nat.mod_add_div n 128
        calc n % 128 * 2 ^ (7 * i) + n / 128 * 2 ^ (7 * (i + 1))
            = (n % 128 + 128 * (n / 128)) * 2 ^ (7 * i) := by ring_nf
          _ = n * 2 ^ (7 * i) := by rw [hsplit]
      rw [Prod.mk.injEq]
      constructor
      · congr 1
        omega
      · push_cast
        ring

/-- Encoding followed by decoding recovers the value and consumes exactly the
encoded bytes, for every value that fits in a `uint64`. -/
theorem uvarint_putUvarint (n : Nat) (rest : List Nat) (h : n < 2 ^ 64) :
    uvarint (putUvarint n ++ rest) = (n, ((putUvarint n).length : Int)) := by
  have h2 := uvarintAux_spec n 0 0 rest (by omega) (by simpa using h)
  have h3 : n % 18446744073709551616 = n := by omega
  simpa [uvarint, h3] using h2

theorem uvarintAux_nonpos :
    ∀ buf i s x, (uvarintAux buf i s x).2 ≤ 0 → (uvarintAux buf i s x).1 = 0 := by
  intro buf
  induction buf with
  | nil => simp [uvarintAux]
  | cons b rest ih =>
    intro i s x h
    simp only [uvarintAux] at h ⊢
    by_cases h10 : i = 10
    · simp [h10]
    · rw [if_neg h10] at h ⊢
      by_cases hb : b < 128
      · rw [if_pos hb] at h ⊢
        by_cases h9 : i = 9 ∧ 1 < b
        · simp [h9]
        · rw [if_neg h9] at h ⊢
          simp only at h
          omega
      · rw [if_neg hb] at h ⊢
        exact ih _ _ _ h

/-- Go's `Uvarint` returns the value `0` whenever it reports failure
(a non-positive byte count). -/
theorem uvarint_fail_zero (buf : List Nat) (h : (uvarint buf).2 ≤ 0) :
    (uvarint buf).1 = 0 :=
  uvarintAux_nonpos buf 0 0 0 h

/-- Embedding of Go's `binary.LittleEndian` byte encoding of an integer into
`w` bytes. -/
def leBytes : Nat → Nat → List Nat
  | 0, _ => []
  | w + 1, n => n % 256 :: leBytes w (n / 256)

/-- Embedding of Go's `binary.LittleEndian.Uint64`/`Uint32` read of `w` bytes
from the front of a buffer. -/
def leUint : Nat → List Nat → Nat
  | 0, _ => 0
  | _ + 1, [] => 0
  | w + 1, b :: bs => b + 256 * leUint w bs

theorem leBytes_length (w n : Nat) : (leBytes w n).length = w := by
  induction w generalizing n with
  | zero => rfl
  | succ w ih => simp [leBytes, ih]

theorem leUint_leBytes (w : Nat) : ∀ n r, leUint w (leBytes w n ++ r) = n % 256 ^ w := by
  induction w with
  | zero => intro n r; simp [leBytes, leUint, Nat.mod_one]
  | succ w ih =>
    intro n r
    have hrw : 256 ^ (w + 1) = 256 * 256 ^ w := by ring
    simp only [leBytes, List.cons_append, List.append_eq, leUint, ih]
    rw [hrw]
    have h1 : n % (256 * 256 ^ w) = n % 256 + 256 * (n / 256 % 256 ^ w) := by
      conv_lhs => rw [← Nat.mod_add_div n 256]
      conv_lhs => rw [← Nat.mod_add_div (n / 256) (256 ^ w)]
      have : n % 256 + 256 * (n / 256 % 256 ^ w + 256 ^ w * (n / 256 / 256 ^ w))
          = n % 256 + 256 * (n / 256 % 256 ^ w) + 256 * 256 ^ w * (n / 256 / 256 ^ w) := by
        ring
      rw [this, Nat.add_mul_mod_self_left]
      have hlt : n % 256 + 256 * (n / 256 % 256 ^ w) < 256 * 256 ^ w := by
        have h2 : n % 256 < 256 := Nat.mod_lt _ (by omega)
        have h3 : n / 256 % 256 ^ w < 256 ^ w :=
          Nat.mod_lt _ (Nat.pos_pow_of_pos w (by omega))
        have h4 : 256 * (n / 256 % 256 ^ w) ≤ 256 * (256 ^ w - 1) :=
          Nat.mul_le_mul_left _ (by omega)
        have h5 : 256 * (256 ^ w - 1) = 256 * 256 ^ w - 256 := by
          have : 1 ≤ 256 ^ w := Nat.one_le_pow _ _ (by omega)
          omega
        omega
      rw [Nat.mod_eq_of_lt hlt]
    omega

/-!
### Batch entry model

The batch payload layout and the internal key kinds live in the `pebble` and
`internal/base` packages, which are not part of the sources here; they are
modelled from the spec (sections 3, 4.3 and 4.4): a 12-byte fixed header
holding the 64-bit sequence number and 32-bit count, followed by entries, each
a one-byte kind tag, a length-prefixed key, and (for value-carrying kinds) a
length-prefixed value.
-/

/-- Modelled from the spec: the closed `MutationKind` enumeration of
`internal/base` (`InternalKeyKind`), which is not among the sources; tag
values are the engine's byte tags, with `23` the largest valid tag. -/
def kindDelete : Nat := 0

def kindSet : Nat := 1

def kindMerge : Nat := 2

def kindLogData : Nat := 3

def kindSingleDelete : Nat := 7

def kindRangeDelete : Nat := 15

def kindSetWithDelete : Nat := 18

def kindRangeKeyDelete : Nat := 19

def kindRangeKeyUnset : Nat := 20

def kindRangeKeySet : Nat := 21

def kindIngestSST : Nat := 22

def kindDeleteSized : Nat := 23

def kindMax : Nat := 23

/-- Modelled from the spec (section 4.4): the textual name of each mutation
kind, as printed by the `%s` verb on the kind in `runDump`. -/
def kindName (k : Nat) : String :=
  if k = 0 then "Delete"
  else if k = 1 then "Set"
  else if k = 2 then "Merge"
  else if k = 3 then "LogData"
  else if k = 7 then "SingleDelete"
  else if k = 15 then "RangeDelete"
  else if k = 18 then "SetWithDelete"
  else if k = 19 then "RangeKeyDelete"
  else if k = 20 then "RangeKeyUnset"
  else if k = 21 then "RangeKeySet"
  else if k = 22 then "IngestSST"
  else if k = 23 then "DeleteSized"
  else "Unknown"

/-- Modelled from the spec (section 4.3): which kinds carry a length-prefixed
value after the key.  `Delete`, `SingleDelete`, `SetWithDelete` and
`IngestSST` carry no payload beyond the key (IngestSST's file number is the
key field). -/
def kindHasValue (k : Nat) : Bool :=
  k == 1 || k == 2 || k == 3 || k == 15 || k == 19 || k == 20 || k == 21 || k == 23

/-- One decoded batch entry: kind tag, key bytes and value bytes. -/
structure BatchEntry where
  kind : Nat
  key : List Nat
  value : List Nat
deriving DecidableEq

/-- Modelled from the spec (section 4.3): the encoding of a single entry
inside a batch payload. -/
def encodeEntry (e : BatchEntry) : List Nat :=
  e.kind ::
    (putUvarint e.key.length ++ e.key ++
      (if kindHasValue e.kind then putUvarint e.value.length ++ e.value else []))

/-- Concatenated encoding of a list of entries, in order. -/
def encodeEntries : List BatchEntry → List Nat
  | [] => []
  | e :: es => encodeEntry e ++ encodeEntries es

/-- Modelled from the spec (section 3): the batch payload is the 8-byte
little-endian sequence number, the 4-byte little-endian count, then the
encoded entries. -/
def encodeBatch (seq : Nat) (es : List BatchEntry) : List Nat :=
  leBytes 8 seq ++ leBytes 4 es.length ++ encodeEntries es

/-- Embedding of `batchDecodeStr` (pebble, modelled from the spec's
"length-prefixed" fields): read a `Uvarint` length then that many bytes;
fails when the length prefix is invalid or exceeds the remaining bytes. -/
def batchDecodeStr (data : List Nat) : Option (List Nat × List Nat) :=
  if (uvarint data).2 ≤ 0 then none
  else if (uvarint data).1 ≤ (data.drop (uvarint data).2.toNat).length then
    some ((data.drop (uvarint data).2.toNat).take (uvarint data).1,
      (data.drop (uvarint data).2.toNat).drop (uvarint data).1)
  else none

/-- Outcome of one step of the batch entry cursor (`BatchReader.Next`):
end of entries, a structural failure, or one decoded entry plus the
remaining bytes. -/
inductive NextResult where
  | done : NextResult
  | fail : String → NextResult
  | entry : BatchEntry → List Nat → NextResult
deriving DecidableEq

/-- Modelled from the spec (section 4.3): one step of the entry cursor.  An
empty buffer is a clean end; an out-of-range kind tag or a bad
length-prefixed field is a structural violation. -/
def readNext (data : List Nat) : NextResult :=
  match data with
  | [] => NextResult.done
  | k :: tl =>
    if kindMax < k then NextResult.fail "invalid record kind"
    else
      match batchDecodeStr tl with
      | none => NextResult.fail "decoding user key"
      | some (ukey, r1) =>
        if kindHasValue k then
          match batchDecodeStr r1 with
          | none => NextResult.fail "decoding user value"
          | some (v, r2) => NextResult.entry ⟨k, ukey, v⟩ r2
        else NextResult.entry ⟨k, ukey, []⟩ r1

theorem batchDecodeStr_length {data s r : List Nat}
    (h : batchDecodeStr data = some (s, r)) : r.length ≤ data.length := by
  unfold batchDecodeStr at h
  split at h
  · exact absurd h (by simp)
  · split at h
    · simp only [Option.some.injEq, Prod.mk.injEq] at h
      rw [← h.2]
      simp only [List.length_drop]
      omega
    · exact absurd h (by simp)

theorem readNext_entry_length {data : List Nat} {e : BatchEntry} {rest : List Nat}
    (h : readNext data = NextResult.entry e rest) : rest.length < data.length := by
  unfold readNext at h
  match data with
  | [] => simp at h
  | k :: tl =>
    simp only at h
    by_cases hk : kindMax < k
    · simp [hk] at h
    · rw [if_neg hk] at h
      match h1 : batchDecodeStr tl with
      | none => rw [h1] at h; simp at h
      | some (ukey, r1) =>
        rw [h1] at h
        have hr1 : r1.length ≤ tl.length := batchDecodeStr_length h1
        simp only at h
        by_cases hv : kindHasValue k
        · rw [if_pos hv] at h
          match h2 : batchDecodeStr r1 with
          | none => rw [h2] at h; simp at h
          | some (v, r2) =>
            rw [h2] at h
            have hr2 : r2.length ≤ r1.length := batchDecodeStr_length h2
            simp only [NextResult.entry.injEq] at h
            rw [← h.2]
            simp only [List.length_cons]
            omega
        · rw [if_neg hv] at h
          simp only [NextResult.entry.injEq] at h
          rw [← h.2]
          simp only [List.length_cons]
          omega

/-- A structurally valid entry: a recognized kind tag, field lengths that fit
in a `uint64` length prefix, and no value bytes for kinds that do not encode
a value. -/
def ValidEntry (e : BatchEntry) : Prop :=
  (e.kind = 0 ∨ e.kind = 1 ∨ e.kind = 2 ∨ e.kind = 3 ∨ e.kind = 7 ∨ e.kind = 15 ∨
    e.kind = 18 ∨ e.kind = 19 ∨ e.kind = 20 ∨ e.kind = 21 ∨ e.kind = 22 ∨ e.kind = 23) ∧
  e.key.length < 2 ^ 64 ∧ e.value.length < 2 ^ 64 ∧
  (kindHasValue e.kind = false → e.value = [])

instance (e : BatchEntry) : Decidable (ValidEntry e) := by
  unfold ValidEntry
  infer_instance

theorem batchDecodeStr_encode (s rest : List Nat) (h : s.length < 2 ^ 64) :
    batchDecodeStr (putUvarint s.length ++ s ++ rest) = some (s, rest) := by
  have hu := uvarint_putUvarint s.length (s ++ rest) h
  have hlen : 0 < (putUvarint s.length).length := putUvarint_length_pos _
  unfold batchDecodeStr
  rw [List.append_assoc, hu]
  simp only
  rw [if_neg (by omega : ¬ ((putUvarint s.length).length : Int) ≤ 0)]
  have htoNat : (((putUvarint s.length).length : Int)).toNat = (putUvarint s.length).length := by
    omega
  rw [htoNat, List.drop_left]
  rw [if_pos (by simp : s.length ≤ (s ++ rest).length)]
  rw [List.take_left, List.drop_left]

theorem readNext_encode (e : BatchEntry) (rest : List Nat) (hv : ValidEntry e) :
    readNext (encodeEntry e ++ rest) = NextResult.entry e rest := by
  obtain ⟨k, key, v⟩ := e
  obtain ⟨hk, hklen, hvlen, hnov⟩ := hv
  simp only at hk hklen hvlen hnov
  unfold encodeEntry readNext
  simp only [List.cons_append]
  rw [if_neg (by unfold kindMax; omega : ¬ kindMax < k)]
  by_cases hval : kindHasValue k
  · rw [if_pos hval]
    have h1 : putUvarint key.length ++ key ++ (putUvarint v.length ++ v) ++ rest
        = putUvarint key.length ++ key ++ (putUvarint v.length ++ v ++ rest) := by
      simp [List.append_assoc]
    rw [h1]
    simp only [batchDecodeStr_encode key _ hklen]
    rw [if_pos hval]
    simp only [batchDecodeStr_encode v rest hvlen]
  · have hval' : kindHasValue k = false := by
      revert hval
      cases kindHasValue k <;> simp
    rw [hnov hval']
    rw [if_neg hval]
    have h1 : putUvarint key.length ++ key ++ [] ++ rest
        = putUvarint key.length ++ key ++ rest := by simp
    rw [h1]
    simp only [batchDecodeStr_encode key rest hklen]
    rw [if_neg hval]

/-!
### Formatters and the entry renderer
-/

def hexChar (n : Nat) : String :=
  if n < 10 then toString n
  else if n = 10 then "a"
  else if n = 11 then "b"
  else if n = 12 then "c"
  else if n = 13 then "d"
  else if n = 14 then "e"
  else "f"

/-- Modelled from the spec (sections 4.4 and 6): one byte under the default
"quoted" key formatter, in the manner of Go's `%q`: printable ASCII passes
through, quote and backslash are escaped, other bytes become hex escapes. -/
def quotedByte (b : Nat) : String :=
  if b = 34 then "\\\""
  else if b = 92 then "\\\\"
  else if 32 ≤ b ∧ b ≤ 126 then String.singleton (Char.ofNat b)
  else "\\x" ++ hexChar (b / 16) ++ hexChar (b % 16)

/-- Modelled from the spec: the default key formatter (`quoted` mode set by
`newWAL`), rendering the key bytes as a double-quoted string. -/
def fmtQuoted (key : List Nat) : String :=
  "\"" ++ String.join (key.map quotedByte) ++ "\""

/-- Modelled from the spec: the default value formatter (`size` mode set by
`newWAL`), rendering only the byte length of the value; it receives the key
too, to support key-dependent rendering. -/
def fmtSize (_key value : List Nat) : String :=
  toString value.length

/-- The pluggable pieces `runDump` consumes: the key and value formatters,
and the external `rangekey.Decode`-plus-`Pretty` rendering of the nested
range-key structure, taking the kind, the synthesized sequence number, the
key and the value, and producing either the pretty form or a decode error. -/
structure DumpCfg where
  fmtKey : List Nat → String
  fmtValue : List Nat → List Nat → String
  rkDecode : Nat → Nat → List Nat → List Nat → Except String String

/-- Modelled from the spec: the default configuration (quoted keys,
size-only values).  The nested range-key decoder is external to the sources;
the stand-in here always reports a decode error, which no theorem below
depends on (they quantify over the decoder where it matters). -/
def defaultCfg : DumpCfg :=
  ⟨fmtQuoted, fmtSize, fun _ _ _ _ => Except.error "invalid span"⟩

/-- Embedding of the per-entry switch in `runDump` (lines 181-212): one
output line `    kind(payload)` with a kind-specific payload.  The
range-key cases hand the synthesized sequence number to the nested decoder,
mirroring `base.MakeInternalKey(ukey, b.SeqNum()+uint64(idx), kind)`; that
sum is computed in `uint64`, so it wraps mod `2 ^ 64`. -/
def renderEntry (cfg : DumpCfg) (seq idx : Nat) (e : BatchEntry) : String :=
  "    " ++ kindName e.kind ++ "(" ++
    (if e.kind = 0 then cfg.fmtKey e.key
    else if e.kind = 1 then cfg.fmtKey e.key ++ "," ++ cfg.fmtValue e.key e.value
    else if e.kind = 2 then cfg.fmtKey e.key ++ "," ++ cfg.fmtValue e.key e.value
    else if e.kind = 3 then "<" ++ toString e.value.length ++ ">"
    else if e.kind = 22 then toString (uvarint e.key).1
    else if e.kind = 7 then cfg.fmtKey e.key
    else if e.kind = 18 then cfg.fmtKey e.key
    else if e.kind = 15 then cfg.fmtKey e.key ++ "," ++ cfg.fmtKey e.value
    else if e.kind = 21 ∨ e.kind = 20 ∨ e.kind = 19 then
      match cfg.rkDecode e.kind ((seq + idx) % 2 ^ 64) e.key e.value with
      | Except.error msg => cfg.fmtKey e.key ++ ": error decoding " ++ msg
      | Except.ok s => s
    else if e.kind = 23 then cfg.fmtKey e.key ++ "," ++ toString (uvarint e.value).1
    else "") ++ ")"

/-!
### The entry loop

The inner `for` loop of `runDump` (lines 173-213) drives the entry cursor to
exhaustion, printing one line per entry; a cursor failure adds a corrupt-batch
line and ends only this loop.  The loop is embedded with explicit fuel (each
cursor step consumes at least one byte, so `length + 1` steps suffice).
-/

def dumpEntriesAux (cfg : DumpCfg) (seq : Nat) :
    Nat → Nat → List Nat → List String × Option String
  | 0, _, _ => ([], none)
  | fuel + 1, idx, data =>
    match readNext data with
    | NextResult.done => ([], none)
    | NextResult.fail m => ([], some m)
    | NextResult.entry e rest =>
      (renderEntry cfg seq idx e :: (dumpEntriesAux cfg seq fuel (idx + 1) rest).1,
        (dumpEntriesAux cfg seq fuel (idx + 1) rest).2)

/-- The entry loop started at entry index `idx` on the remaining bytes
`data`: the printed entry lines, and the entry-decode error if the cursor
failed. -/
def dumpEntriesFrom (cfg : DumpCfg) (seq idx : Nat) (data : List Nat) :
    List String × Option String :=
  dumpEntriesAux cfg seq (data.length + 1) idx data

/-- The entry loop as run by `runDump` on a batch's entry bytes. -/
def dumpBatchEntries (cfg : DumpCfg) (seq : Nat) (data : List Nat) :
    List String × Option String :=
  dumpEntriesFrom cfg seq 0 data

theorem dumpEntriesAux_fuel (cfg : DumpCfg) (seq : Nat) :
    ∀ f1 f2 idx data, data.length < f1 → data.length < f2 →
      dumpEntriesAux cfg seq f1 idx data = dumpEntriesAux cfg seq f2 idx data := by
  intro f1
  induction f1 with
  | zero => intro f2 idx data h1; omega
  | succ f1 ih =>
    intro f2 idx data h1 h2
    match f2 with
    | 0 => omega
    | g + 1 =>
      cases h : readNext data with
      | done => simp [dumpEntriesAux, h]
      | fail m => simp [dumpEntriesAux, h]
      | entry e rest =>
        have hlt := readNext_entry_length h
        simp only [dumpEntriesAux, h]
        rw [ih g (idx + 1) rest (by omega) (by omega)]

theorem dumpEntriesFrom_done {data : List Nat} (cfg : DumpCfg) (seq idx : Nat)
    (h : readNext data = NextResult.done) :
    dumpEntriesFrom cfg seq idx data = ([], none) := by
  simp [dumpEntriesFrom, dumpEntriesAux, h]

theorem dumpEntriesFrom_fail {data : List Nat} {m : String} (cfg : DumpCfg) (seq idx : Nat)
    (h : readNext data = NextResult.fail m) :
    dumpEntriesFrom cfg seq idx data = ([], some m) := by
  simp [dumpEntriesFrom, dumpEntriesAux, h]

theorem dumpEntriesFrom_entry {data : List Nat} {e : BatchEntry} {rest : List Nat}
    (cfg : DumpCfg) (seq idx : Nat) (h : readNext data = NextResult.entry e rest) :
    dumpEntriesFrom cfg seq idx data =
      (renderEntry cfg seq idx e :: (dumpEntriesFrom cfg seq (idx + 1) rest).1,
        (dumpEntriesFrom cfg seq (idx + 1) rest).2) := by
  have hlt := readNext_entry_length h
  unfold dumpEntriesFrom
  conv_lhs => rw [show data.length + 1 = data.length + 1 from rfl]
  rw [show dumpEntriesAux cfg seq (data.length + 1) idx data
      = (renderEntry cfg seq idx e :: (dumpEntriesAux cfg seq data.length (idx + 1) rest).1,
        (dumpEntriesAux cfg seq data.length (idx + 1) rest).2) from by
    simp [dumpEntriesAux, h]]
  rw [dumpEntriesAux_fuel cfg seq data.length (rest.length + 1) (idx + 1) rest
    (by omega) (by omega)]

/-- The rendered lines of a list of entries, numbering them from `idx`. -/
def enumRender (cfg : DumpCfg) (seq : Nat) : Nat → List BatchEntry → List String
  | _, [] => []
  | idx, e :: es => renderEntry cfg seq idx e :: enumRender cfg seq (idx + 1) es

theorem enumRender_length (cfg : DumpCfg) (seq : Nat) :
    ∀ idx es, (enumRender cfg seq idx es).length = List.length es := by
  intro idx es
  induction es generalizing idx with
  | nil => rfl
  | cons e es ih => simp [enumRender, ih]

theorem enumRender_get (cfg : DumpCfg) (seq : Nat) :
    ∀ es idx i, (enumRender cfg seq idx es)[i]? =
      (es[i]?).map (renderEntry cfg seq (idx + i)) := by
  intro es
  induction es with
  | nil => intro idx i; simp [enumRender]
  | cons e es ih =>
    intro idx i
    match i with
    | 0 => simp [enumRender]
    | i + 1 =>
      have harith : idx + (i + 1) = idx + 1 + i := by omega
      simp only [enumRender, List.getElem?_cons_succ, ih (idx + 1) i, harith]

theorem dumpEntriesFrom_encode (cfg : DumpCfg) (seq : Nat) :
    ∀ es idx, (∀ e ∈ es, ValidEntry e) →
      dumpEntriesFrom cfg seq idx (encodeEntries es) = (enumRender cfg seq idx es, none) := by
  intro es
  induction es with
  | nil =>
    intro idx _
    simp [encodeEntries, dumpEntriesFrom_done cfg seq idx (by rfl : readNext [] = NextResult.done),
      enumRender]
  | cons e es ih =>
    intro idx hval
    have he : ValidEntry e := hval e (by simp)
    have hrest : ∀ x ∈ es, ValidEntry x := fun x hx => hval x (by simp [hx])
    rw [show encodeEntries (e :: es) = encodeEntry e ++ encodeEntries es from rfl]
    rw [dumpEntriesFrom_entry cfg seq idx (readNext_encode e (encodeEntries es) he)]
    rw [ih (idx + 1) hrest]
    rfl

/-!
### Record-level processing

The outer record loop of `runDump` (lines 143-214): one iteration per logical
record from the framed record source, which is external and modelled as the
list of records it yields followed by the failure that ends the loop
(`io.EOF`, a zeroed chunk, an invalid chunk, or anything else).
-/

/-- Modelled from the spec (section 4.2): the tri-state classification of the
framed record source's failures.  A clean end of file arrives as
`other "EOF"`. -/
inductive RecErr where
  | zeroedChunk : RecErr
  | invalidChunk : RecErr
  | other : String → RecErr
deriving DecidableEq

/-- The line printed by the `switch err` in `runDump` (lines 155-162) when
the record source fails.  The two soft conditions become informational EOF
lines naming the likely cause; anything else is printed as-is. -/
def recErrLine : RecErr → String
  | RecErr.zeroedChunk => "EOF [pebble/record: zeroed chunk] (may be due to WAL preallocation)"
  | RecErr.invalidChunk => "EOF [pebble/record: invalid chunk] (may be due to WAL recycling)"
  | RecErr.other m => m

/-- The corrupt-batch message of `runDump` (lines 168 and 177), which quotes
the originating file path. -/
def corruptBatchLine (path msg : String) : String :=
  "corrupt batch within log file \"" ++ path ++ "\": " ++ msg

/-- Modelled from the spec: the message of `pebble.ErrInvalidBatch`,
returned by `Batch.SetRepr` for a payload shorter than the fixed header. -/
def invalidBatchMsg : String := "invalid batch"

/-- Embedding of `Batch.SetRepr` followed by `SeqNum`/`Count` (modelled from
the spec, section 4.3): fails when the payload is shorter than the 12-byte
header, otherwise reads the 64-bit sequence number and the 32-bit count from
their fixed positions. -/
def setRepr (payload : List Nat) : Option (Nat × Nat) :=
  if payload.length < 12 then none
  else some (leUint 8 payload, leUint 4 (payload.drop 8))

/-- The batch summary line `offset(len) seq=S count=C` (line 171). -/
def summaryLine (off len seq count : Nat) : String :=
  toString off ++ "(" ++ toString len ++ ") seq=" ++ toString seq ++
    " count=" ++ toString count

/-- Embedding of the record loop body for the records a file yields: for each
record, decode the batch header (stopping the file on failure), print the
summary line, run the entry loop, print a corrupt-batch line if the entry
cursor failed (only ending that batch's listing), and continue with the next
record; when the source fails, print the classified error line and stop. -/
def processRecords (cfg : DumpCfg) (path : String) :
    List (Nat × List Nat) → RecErr → List String
  | [], fin => [recErrLine fin]
  | (off, payload) :: rest, fin =>
    match setRepr payload with
    | none => [corruptBatchLine path invalidBatchMsg]
    | some (seq, count) =>
      summaryLine off payload.length seq count ::
        ((dumpBatchEntries cfg seq (payload.drop 12)).1 ++
          (match (dumpBatchEntries cfg seq (payload.drop 12)).2 with
            | some m => [corruptBatchLine path m]
            | none => []) ++
          processRecords cfg path rest fin)

/-- The lines one header-valid record contributes to the output. -/
def recordOutput (cfg : DumpCfg) (path : String) (r : Nat × List Nat) : List String :=
  match setRepr r.2 with
  | none => [corruptBatchLine path invalidBatchMsg]
  | some (seq, count) =>
    summaryLine r.1 r.2.length seq count ::
      ((dumpBatchEntries cfg seq (r.2.drop 12)).1 ++
        (match (dumpBatchEntries cfg seq (r.2.drop 12)).2 with
          | some m => [corruptBatchLine path m]
          | none => []))

/-- Concatenated per-record output, in order. -/
def recordsOutput (cfg : DumpCfg) (path : String) : List (Nat × List Nat) → List String
  | [] => []
  | r :: rs => recordOutput cfg path r ++ recordsOutput cfg path rs

/-!
### Per-file and top-level iteration
-/

/-- One input path as `runDump` sees it: the path string, the result of
`base.ParseFilename` on it (external, modelled as an optional file number),
and the result of opening it — an error, or the file's record stream, which
may depend on the file number handed to `record.NewReader`. -/
structure FileInput where
  path : String
  parsedNum : Option Nat
  openRes : Except String (Nat → List (Nat × List Nat) × RecErr)

/-- Embedding of lines 126-129 of `runDump`: the file number used for
decoding, falling back to `0` when the filename did not parse. -/
def effectiveFileNum : Option Nat → Nat
  | none => 0
  | some n => n

/-- Embedding of the per-file closure of `runDump` (lines 121-214): returns
the `(stdout, stderr)` lines this file contributes.  An open failure prints
the error to stderr and skips the file; otherwise the path header line is
printed and the record loop runs on the stream obtained with the effective
file number. -/
def dumpFile (cfg : DumpCfg) (f : FileInput) : List String × List String :=
  match f.openRes with
  | Except.error msg => ([], [msg])
  | Except.ok content =>
    ((f.path :: processRecords cfg f.path
        (content (effectiveFileNum f.parsedNum)).1
        (content (effectiveFileNum f.parsedNum)).2), [])

/-- Embedding of the top-level loop of `runDump` (line 120): every input path
is processed independently, in order. -/
def runDump (cfg : DumpCfg) : List FileInput → List String × List String
  | [] => ([], [])
  | f :: fs =>
    ((dumpFile cfg f).1 ++ (runDump cfg fs).1,
      (dumpFile cfg f).2 ++ (runDump cfg fs).2)

/-!
### Helper lemmas
-/

theorem drop_length_append {α : Type} {l r : List α} {n : Nat} (h : l.length = n) :
    (l ++ r).drop n = r := by
  subst h
  exact List.drop_left l r

theorem encodeBatch_header (seq : Nat) (es : List BatchEntry) (hseq : seq < 2 ^ 64)
    (hcount : es.length < 2 ^ 32) :
    setRepr (encodeBatch seq es) = some (seq, es.length) ∧
    (encodeBatch seq es).drop 12 = encodeEntries es := by
  have h8 : (leBytes 8 seq).length = 8 := leBytes_length _ _
  have h4 : (leBytes 4 es.length).length = 4 := leBytes_length _ _
  have hassoc : encodeBatch seq es
      = leBytes 8 seq ++ (leBytes 4 es.length ++ encodeEntries es) := by
    simp [encodeBatch, List.append_assoc]
  have hdrop8 : (encodeBatch seq es).drop 8 = leBytes 4 es.length ++ encodeEntries es := by
    rw [hassoc]
    exact drop_length_append h8
  have hcomp : ((encodeBatch seq es).drop 8).drop 4 = (encodeBatch seq es).drop 12 := by
    rw [List.drop_drop]
  have hdrop12 : (encodeBatch seq es).drop 12 = encodeEntries es := by
    rw [← hcomp, hdrop8]
    exact drop_length_append h4
  have hlen : 12 ≤ (encodeBatch seq es).length := by
    rw [hassoc]
    simp only [List.length_append, h8, h4]
    omega
  have hseq' : leUint 8 (encodeBatch seq es) = seq := by
    rw [hassoc, leUint_leBytes]
    omega
  have hcnt : leUint 4 ((encodeBatch seq es).drop 8) = es.length := by
    rw [hdrop8, leUint_leBytes]
    omega
  refine ⟨?_, hdrop12⟩
  unfold setRepr
  rw [if_neg (by omega), hseq', hcnt]

theorem processRecords_headerOk (cfg : DumpCfg) (path : String) :
    ∀ recs fin, (∀ r ∈ recs, 12 ≤ (Prod.snd r).length) →
      processRecords cfg path recs fin = recordsOutput cfg path recs ++ [recErrLine fin] := by
  intro recs
  induction recs with
  | nil => intro fin _; simp [processRecords, recordsOutput]
  | cons r rs ih =>
    intro fin h
    obtain ⟨off, payload⟩ := r
    have hp : 12 ≤ payload.length := h (off, payload) (by simp)
    have hsome : setRepr payload = some (leUint 8 payload, leUint 4 (payload.drop 8)) := by
      unfold setRepr
      rw [if_neg (by omega)]
    rw [show processRecords cfg path ((off, payload) :: rs) fin
        = (match setRepr payload with
          | none => [corruptBatchLine path invalidBatchMsg]
          | some (seq, count) =>
            summaryLine off payload.length seq count ::
              ((dumpBatchEntries cfg seq (payload.drop 12)).1 ++
                (match (dumpBatchEntries cfg seq (payload.drop 12)).2 with
                  | some m => [corruptBatchLine path m]
                  | none => []) ++
                processRecords cfg path rs fin)) from rfl]
    rw [hsome]
    rw [ih fin (fun x hx => h x (by simp [hx]))]
    rw [show recordsOutput cfg path ((off, payload) :: rs)
        = recordOutput cfg path (off, payload) ++ recordsOutput cfg path rs from rfl]
    unfold recordOutput
    rw [hsome]
    simp [List.append_assoc]

/-!
### Claims
-/

/-- C1: for every well-formed batch record dumped, the number of entry lines
printed equals the batch header's declared count, and the sequence number
implied for the entry at index `i` (as handed to the range-key decoder)
equals the header's sequence number plus `i`.  Well-formedness includes the
sequence numbers assigned to the entries fitting in a `uint64`
(`seq + count ≤ 2 ^ 64`): the program computes `b.SeqNum()+uint64(idx)` in
`uint64`, so beyond that bound it would wrap. -/
theorem wellformed_batch_lines (cfg : DumpCfg) (seq : Nat) (es : List BatchEntry)
    (hseq : seq < 2 ^ 64) (hcount : es.length < 2 ^ 32)
    (hfit : seq + es.length ≤ 2 ^ 64)
    (hval : ∀ e ∈ es, ValidEntry e) :
    setRepr (encodeBatch seq es) = some (seq, es.length) ∧
    (dumpBatchEntries cfg seq ((encodeBatch seq es).drop 12)).1.length = es.length ∧
    (dumpBatchEntries cfg seq ((encodeBatch seq es).drop 12)).2 = none ∧
    (∀ i, (dumpBatchEntries cfg seq ((encodeBatch seq es).drop 12)).1[i]? =
      (es[i]?).map (renderEntry cfg seq i)) ∧
    (∀ i e, i < es.length → e.kind = 21 ∨ e.kind = 20 ∨ e.kind = 19 →
      renderEntry cfg seq i e = "    " ++ kindName e.kind ++ "(" ++
        (match cfg.rkDecode e.kind (seq + i) e.key e.value with
          | Except.error msg => cfg.fmtKey e.key ++ ": error decoding " ++ msg
          | Except.ok s => s) ++ ")") := by
  obtain ⟨hrepr, hdrop⟩ := encodeBatch_header seq es hseq hcount
  have hdump : dumpBatchEntries cfg seq ((encodeBatch seq es).drop 12)
      = (enumRender cfg seq 0 es, none) := by
    rw [hdrop]
    exact dumpEntriesFrom_encode cfg seq es 0 hval
  refine ⟨hrepr, ?_, ?_, ?_, ?_⟩
  · rw [hdump]
    exact enumRender_length cfg seq 0 es
  · rw [hdump]
  · intro i
    rw [hdump]
    have := enumRender_get cfg seq es 0 i
    simpa using this
  · intro i e hi hk
    have hwrap : (seq + i) % 18446744073709551616 = seq + i := by omega
    rcases hk with hk | hk | hk <;> simp [renderEntry, hk, hwrap]

/-- Witness for C1 at a concrete one-entry batch. -/
theorem wellformed_batch_lines_witness :
    setRepr (encodeBatch 5 [⟨1, [107], [1, 2, 3]⟩]) = some (5, 1) ∧
    (dumpBatchEntries defaultCfg 5 ((encodeBatch 5 [⟨1, [107], [1, 2, 3]⟩]).drop 12)).1.length = 1 :=
  ⟨(wellformed_batch_lines defaultCfg 5 [⟨1, [107], [1, 2, 3]⟩]
      (by decide) (by decide) (by decide) (by decide)).1,
    (wellformed_batch_lines defaultCfg 5 [⟨1, [107], [1, 2, 3]⟩]
      (by decide) (by decide) (by decide) (by decide)).2.1⟩

/-- C2: a ZeroedChunk failure from the record source prints an informational
EOF line naming WAL preallocation, an InvalidChunk failure prints one naming
WAL recycling, any other failure prints as-is; all three end the file's
record loop, and the run proceeds with the next file. -/
theorem record_failure_lines (cfg : DumpCfg) (path : String)
    (recs : List (Nat × List Nat)) (fin : RecErr)
    (h : ∀ r ∈ recs, 12 ≤ (Prod.snd r).length) :
    processRecords cfg path recs fin = recordsOutput cfg path recs ++ [recErrLine fin] ∧
    recErrLine RecErr.zeroedChunk =
      "EOF [pebble/record: zeroed chunk] (may be due to WAL preallocation)" ∧
    recErrLine RecErr.invalidChunk =
      "EOF [pebble/record: invalid chunk] (may be due to WAL recycling)" ∧
    (∀ m, recErrLine (RecErr.other m) = m) ∧
    (∀ f fs, runDump cfg (f :: fs) =
      ((dumpFile cfg f).1 ++ (runDump cfg fs).1,
        (dumpFile cfg f).2 ++ (runDump cfg fs).2)) :=
  ⟨processRecords_headerOk cfg path recs fin h, rfl, rfl, fun _ => rfl, fun _ _ => rfl⟩

/-- Witness for C2 on a one-record stream ending in a zeroed chunk. -/
theorem record_failure_lines_witness :
    processRecords defaultCfg "000001.log" [(0, List.replicate 12 0)] RecErr.zeroedChunk =
      recordsOutput defaultCfg "000001.log" [(0, List.replicate 12 0)] ++
        [recErrLine RecErr.zeroedChunk] ∧
    recErrLine RecErr.zeroedChunk =
      "EOF [pebble/record: zeroed chunk] (may be due to WAL preallocation)" :=
  ⟨(record_failure_lines defaultCfg "000001.log" [(0, List.replicate 12 0)]
      RecErr.zeroedChunk (by decide)).1,
    (record_failure_lines defaultCfg "000001.log" [(0, List.replicate 12 0)]
      RecErr.zeroedChunk (by decide)).2.1⟩

/-- C3 counterexample: an entry-level structural violation (kind tag 24 in
the first record) prints the corrupt-batch line but does NOT stop the file:
the second record's summary line is still printed after it. -/
theorem corrupt_entry_continues_cex :
    (processRecords defaultCfg "wal"
        [(0, [1, 0, 0, 0, 0, 0, 0, 0, 1, 0, 0, 0, 24]),
          (13, [2, 0, 0, 0, 0, 0, 0, 0, 0, 0, 0, 0])] (RecErr.other "EOF"))[1]? =
      some (corruptBatchLine "wal" "invalid record kind") ∧
    (processRecords defaultCfg "wal"
        [(0, [1, 0, 0, 0, 0, 0, 0, 0, 1, 0, 0, 0, 24]),
          (13, [2, 0, 0, 0, 0, 0, 0, 0, 0, 0, 0, 0])] (RecErr.other "EOF"))[2]? =
      some "13(12) seq=2 count=0" := by
  constructor <;> rfl

/-- C3 (amended): a header-level violation (payload shorter than the 12-byte
header) prints a CorruptBatch line carrying the file path and stops the
file's processing; an entry-level violation prints a CorruptBatch line
carrying the file path and ends that batch's entry listing, but the record
loop continues with the remaining records; batches already printed remain in
the output. -/
theorem corrupt_batch_scope (cfg : DumpCfg) (path : String) (off : Nat) (p : List Nat)
    (rest : List (Nat × List Nat)) (fin : RecErr) :
    (p.length < 12 → processRecords cfg path ((off, p) :: rest) fin =
      [corruptBatchLine path invalidBatchMsg]) ∧
    (∀ m, 12 ≤ p.length → (dumpBatchEntries cfg (leUint 8 p) (p.drop 12)).2 = some m →
      processRecords cfg path ((off, p) :: rest) fin =
        summaryLine off p.length (leUint 8 p) (leUint 4 (p.drop 8)) ::
          ((dumpBatchEntries cfg (leUint 8 p) (p.drop 12)).1 ++
            corruptBatchLine path m :: processRecords cfg path rest fin)) := by
  constructor
  · intro hshort
    rw [show processRecords cfg path ((off, p) :: rest) fin
        = (match setRepr p with
          | none => [corruptBatchLine path invalidBatchMsg]
          | some (seq, count) =>
            summaryLine off p.length seq count ::
              ((dumpBatchEntries cfg seq (p.drop 12)).1 ++
                (match (dumpBatchEntries cfg seq (p.drop 12)).2 with
                  | some m => [corruptBatchLine path m]
                  | none => []) ++
                processRecords cfg path rest fin)) from rfl]
    rw [show setRepr p = none from by unfold setRepr; rw [if_pos hshort]]
  · intro m hlong hfail
    have hsome : setRepr p = some (leUint 8 p, leUint 4 (p.drop 8)) := by
      unfold setRepr
      rw [if_neg (by omega)]
    simp only [processRecords, hsome]
    rw [hfail]
    simp [List.append_assoc]

/-- Witness for C3's amended statement: a short payload stops the file; a
bad entry tag only ends the current batch's listing. -/
theorem corrupt_batch_scope_witness :
    processRecords defaultCfg "w" [(0, [7])] (RecErr.other "EOF") =
      [corruptBatchLine "w" invalidBatchMsg] ∧
    processRecords defaultCfg "w"
        [(0, [1, 0, 0, 0, 0, 0, 0, 0, 1, 0, 0, 0, 24])] (RecErr.other "EOF") =
      summaryLine 0 13 1 1 ::
        ((dumpBatchEntries defaultCfg 1 [24]).1 ++
          corruptBatchLine "w" "invalid record kind" ::
            processRecords defaultCfg "w" [] (RecErr.other "EOF")) :=
  ⟨(corrupt_batch_scope defaultCfg "w" 0 [7] [] (RecErr.other "EOF")).1 (by decide),
    (corrupt_batch_scope defaultCfg "w" 0 [1, 0, 0, 0, 0, 0, 0, 0, 1, 0, 0, 0, 24]
      [] (RecErr.other "EOF")).2 "invalid record kind" (by decide) (by decide)⟩

/-- C4: every input path is attempted in order; a file whose open fails
contributes a single reported error line and nothing else, and processing of
all other paths is unaffected; the top-level loop always completes. -/
theorem open_failure_isolation (cfg : DumpCfg) (fs1 fs2 : List FileInput)
    (f : FileInput) (m : String) (h : f.openRes = Except.error m) :
    (runDump cfg (fs1 ++ f :: fs2)).1 = (runDump cfg fs1).1 ++ (runDump cfg fs2).1 ∧
    (runDump cfg (fs1 ++ f :: fs2)).2 = (runDump cfg fs1).2 ++ m :: (runDump cfg fs2).2 := by
  have hf : dumpFile cfg f = ([], [m]) := by
    unfold dumpFile
    rw [h]
  induction fs1 with
  | nil =>
    constructor
    · show (dumpFile cfg f).1 ++ (runDump cfg fs2).1 = [] ++ (runDump cfg fs2).1
      rw [hf]
    · show (dumpFile cfg f).2 ++ (runDump cfg fs2).2 = [] ++ m :: (runDump cfg fs2).2
      rw [hf]
      rfl
  | cons g gs ih =>
    constructor
    · show (dumpFile cfg g).1 ++ (runDump cfg (gs ++ f :: fs2)).1
          = (dumpFile cfg g).1 ++ (runDump cfg gs).1 ++ (runDump cfg fs2).1
      rw [ih.1, List.append_assoc]
    · show (dumpFile cfg g).2 ++ (runDump cfg (gs ++ f :: fs2)).2
          = (dumpFile cfg g).2 ++ (runDump cfg gs).2 ++ m :: (runDump cfg fs2).2
      rw [ih.2, List.append_assoc]

/-- Witness for C4: three paths, the middle one failing to open. -/
theorem open_failure_isolation_witness :
    (runDump defaultCfg
        ([⟨"000001.log", some 1, Except.ok (fun _ => ([], RecErr.other "EOF"))⟩] ++
          ⟨"000002.log", none, Except.error "open 000002.log: no such file"⟩ ::
            [⟨"000003.log", some 3, Except.ok (fun _ => ([], RecErr.other "EOF"))⟩])).1 =
      (runDump defaultCfg [⟨"000001.log", some 1, Except.ok (fun _ => ([], RecErr.other "EOF"))⟩]).1 ++
        (runDump defaultCfg [⟨"000003.log", some 3, Except.ok (fun _ => ([], RecErr.other "EOF"))⟩]).1 ∧
    (runDump defaultCfg
        ([⟨"000001.log", some 1, Except.ok (fun _ => ([], RecErr.other "EOF"))⟩] ++
          ⟨"000002.log", none, Except.error "open 000002.log: no such file"⟩ ::
            [⟨"000003.log", some 3, Except.ok (fun _ => ([], RecErr.other "EOF"))⟩])).2 =
      (runDump defaultCfg [⟨"000001.log", some 1, Except.ok (fun _ => ([], RecErr.other "EOF"))⟩]).2 ++
        "open 000002.log: no such file" ::
          (runDump defaultCfg [⟨"000003.log", some 3, Except.ok (fun _ => ([], RecErr.other "EOF"))⟩]).2 :=
  open_failure_isolation defaultCfg
    [⟨"000001.log", some 1, Except.ok (fun _ => ([], RecErr.other "EOF"))⟩]
    [⟨"000003.log", some 3, Except.ok (fun _ => ([], RecErr.other "EOF"))⟩]
    ⟨"000002.log", none, Except.error "open 000002.log: no such file"⟩
    "open 000002.log: no such file" rfl

/-- C5: a RangeKeySet/RangeKeyUnset/RangeKeyDelete entry whose nested
range-key structure fails to decode is still printed, as the formatted key
followed by the decode error, and the remaining entries of the batch are
still processed. -/
theorem rangekey_decode_failure (cfg : DumpCfg) (seq idx : Nat) (e : BatchEntry)
    (rest : List Nat) (err : String)
    (hk : e.kind = 21 ∨ e.kind = 20 ∨ e.kind = 19)
    (hv : ValidEntry e)
    (hd : cfg.rkDecode e.kind ((seq + idx) % 2 ^ 64) e.key e.value = Except.error err) :
    renderEntry cfg seq idx e =
      "    " ++ kindName e.kind ++ "(" ++
        (cfg.fmtKey e.key ++ ": error decoding " ++ err) ++ ")" ∧
    dumpEntriesFrom cfg seq idx (encodeEntry e ++ rest) =
      (renderEntry cfg seq idx e :: (dumpEntriesFrom cfg seq (idx + 1) rest).1,
        (dumpEntriesFrom cfg seq (idx + 1) rest).2) := by
  constructor
  · norm_num at hd
    rcases hk with hk | hk | hk <;> rw [hk] at hd <;> simp [renderEntry, hk, hd]
  · exact dumpEntriesFrom_entry cfg seq idx (readNext_encode e rest hv)

/-- Witness for C5 with the default configuration's failing decoder. -/
theorem rangekey_decode_failure_witness :
    renderEntry defaultCfg 0 0 ⟨21, [97], [9]⟩ =
      "    " ++ kindName 21 ++ "(" ++
        (defaultCfg.fmtKey [97] ++ ": error decoding " ++ "invalid span") ++ ")" ∧
    dumpEntriesFrom defaultCfg 0 0 (encodeEntry ⟨21, [97], [9]⟩ ++ []) =
      (renderEntry defaultCfg 0 0 ⟨21, [97], [9]⟩ :: (dumpEntriesFrom defaultCfg 0 1 []).1,
        (dumpEntriesFrom defaultCfg 0 1 []).2) :=
  rangekey_decode_failure defaultCfg 0 0 ⟨21, [97], [9]⟩ [] "invalid span"
    (by decide) (by decide) rfl

/-- C6: an IngestSST entry renders the unsigned integer decoded as a varint
from its key field; a key encoding 42 renders as IngestSST(42). -/
theorem ingest_sst_render (cfg : DumpCfg) (seq idx n : Nat) (key : List Nat)
    (h : n < 2 ^ 64) :
    renderEntry cfg seq idx ⟨22, key, []⟩ =
      "    IngestSST(" ++ toString (uvarint key).1 ++ ")" ∧
    renderEntry cfg seq idx ⟨22, putUvarint n, []⟩ =
      "    IngestSST(" ++ toString n ++ ")" := by
  have hu : uvarint (putUvarint n) = (n, ((putUvarint n).length : Int)) := by
    have := uvarint_putUvarint n [] h
    simpa using this
  have h1 : (uvarint (putUvarint n)).1 = n := by rw [hu]
  constructor
  · rfl
  · calc renderEntry cfg seq idx ⟨22, putUvarint n, []⟩
        = "    IngestSST(" ++ toString (uvarint (putUvarint n)).1 ++ ")" := rfl
      _ = "    IngestSST(" ++ toString n ++ ")" := by rw [h1]

/-- Witness for C6 at the value 42. -/
theorem ingest_sst_render_witness :
    renderEntry defaultCfg 0 0 ⟨22, putUvarint 42, []⟩ =
      "    IngestSST(" ++ toString 42 ++ ")" :=
  (ingest_sst_render defaultCfg 0 0 42 [] (by decide)).2

/-- C7: a RangeDelete entry renders as the formatted start key, a comma, and
the end key read from the value field formatted by the key formatter; with
the default quoted formatter, start "a" and end "z" render as
RangeDelete("a","z"). -/
theorem range_delete_render (cfg : DumpCfg) (seq idx : Nat) (k v : List Nat) :
    renderEntry cfg seq idx ⟨15, k, v⟩ =
      "    RangeDelete(" ++ (cfg.fmtKey k ++ "," ++ cfg.fmtKey v) ++ ")" ∧
    renderEntry defaultCfg seq idx ⟨15, [97], [122]⟩ =
      "    RangeDelete(\"a\",\"z\")" := by
  constructor <;> rfl

/-- C8: Set and Merge entries render as the formatted key, a comma, and the
formatted value, the value formatter receiving the pair (key, value); under
the default formatters a Set of key "k" with a 3-byte value renders as
Set("k",3). -/
theorem set_merge_render (cfg : DumpCfg) (seq idx : Nat) (k v : List Nat) :
    renderEntry cfg seq idx ⟨1, k, v⟩ =
      "    Set(" ++ (cfg.fmtKey k ++ "," ++ cfg.fmtValue k v) ++ ")" ∧
    renderEntry cfg seq idx ⟨2, k, v⟩ =
      "    Merge(" ++ (cfg.fmtKey k ++ "," ++ cfg.fmtValue k v) ++ ")" ∧
    renderEntry defaultCfg seq idx ⟨1, [107], [118, 118, 118]⟩ =
      "    Set(\"k\",3)" := by
  refine ⟨rfl, rfl, rfl⟩

/-- C9: an input path whose name does not parse falls back to file number 0
and decoding of the file's contents still proceeds. -/
theorem filename_fallback (cfg : DumpCfg) (path : String)
    (content : Nat → List (Nat × List Nat) × RecErr) :
    effectiveFileNum none = 0 ∧
    dumpFile cfg ⟨path, none, Except.ok content⟩ =
      (path :: processRecords cfg path (content 0).1 (content 0).2, []) :=
  ⟨rfl, rfl⟩

/-- C10: when the varint decode of an IngestSST key or a DeleteSized value
fails, the failure indicator is discarded: the rendered number is 0, no
error line is produced (the entry contributes exactly its own line), and the
batch's remaining entries are processed normally. -/
theorem varint_failure_discarded (cfg : DumpCfg) (seq idx : Nat) (k v rest : List Nat)
    (hk : (uvarint k).2 ≤ 0) (hv : (uvarint v).2 ≤ 0)
    (hklen : k.length < 2 ^ 64) (hvlen : v.length < 2 ^ 64) :
    renderEntry cfg seq idx ⟨22, k, []⟩ = "    IngestSST(" ++ toString 0 ++ ")" ∧
    renderEntry cfg seq idx ⟨23, k, v⟩ =
      "    DeleteSized(" ++ (cfg.fmtKey k ++ "," ++ toString 0) ++ ")" ∧
    dumpEntriesFrom cfg seq idx (encodeEntry ⟨22, k, []⟩ ++ rest) =
      (renderEntry cfg seq idx ⟨22, k, []⟩ :: (dumpEntriesFrom cfg seq (idx + 1) rest).1,
        (dumpEntriesFrom cfg seq (idx + 1) rest).2) ∧
    dumpEntriesFrom cfg seq idx (encodeEntry ⟨23, k, v⟩ ++ rest) =
      (renderEntry cfg seq idx ⟨23, k, v⟩ :: (dumpEntriesFrom cfg seq (idx + 1) rest).1,
        (dumpEntriesFrom cfg seq (idx + 1) rest).2) := by
  have hz1 : (uvarint k).1 = 0 := uvarint_fail_zero k hk
  have hz2 : (uvarint v).1 = 0 := uvarint_fail_zero v hv
  have hv22 : ValidEntry ⟨22, k, []⟩ := by
    refine ⟨?_, ?_, ?_, ?_⟩
    · simp
    · exact hklen
    · norm_num
    · intro _
      rfl
  have hv23 : ValidEntry ⟨23, k, v⟩ := by
    refine ⟨?_, ?_, ?_, ?_⟩
    · simp
    · exact hklen
    · exact hvlen
    · intro hfalse
      simp [kindHasValue] at hfalse
  refine ⟨?_, ?_, ?_, ?_⟩
  · calc renderEntry cfg seq idx ⟨22, k, []⟩
        = "    IngestSST(" ++ toString (uvarint k).1 ++ ")" := rfl
      _ = "    IngestSST(" ++ toString 0 ++ ")" := by rw [hz1]
  · calc renderEntry cfg seq idx ⟨23, k, v⟩
        = "    DeleteSized(" ++ (cfg.fmtKey k ++ "," ++ toString (uvarint v).1) ++ ")" := rfl
      _ = "    DeleteSized(" ++ (cfg.fmtKey k ++ "," ++ toString 0) ++ ")" := by rw [hz2]
  · exact dumpEntriesFrom_entry cfg seq idx (readNext_encode ⟨22, k, []⟩ rest hv22)
  · exact dumpEntriesFrom_entry cfg seq idx (readNext_encode ⟨23, k, v⟩ rest hv23)

/-- Witness for C10 with a truncated varint in both fields. -/
theorem varint_failure_discarded_witness :
    renderEntry defaultCfg 0 0 ⟨22, [128], []⟩ = "    IngestSST(" ++ toString 0 ++ ")" ∧
    renderEntry defaultCfg 0 0 ⟨23, [128], [129]⟩ =
      "    DeleteSized(" ++ (defaultCfg.fmtKey [128] ++ "," ++ toString 0) ++ ")" :=
  ⟨(varint_failure_discarded defaultCfg 0 0 [128] [129] []
      (by decide) (by decide) (by decide) (by decide)).1,
    (varint_failure_discarded defaultCfg 0 0 [128] [129] []
      (by decide) (by decide) (by decide) (by decide)).2.1⟩

end WalDump
